import Mathlib

/-!
Shallow embedding of the `a_ntree` n-ary tree library.

The Rust code stores nodes as `Rc<RawNode<T>>` records on the heap, each
holding a value, an ordered `Vec` of strongly-owned children and a `Weak`
parent back-reference.  We model the heap as a map from node ids (`Nat`)
to records, with every allocated record kept alive (in every scenario
below the driver retains a handle to each node, so every `Weak::upgrade`
succeeds).  Heap-recursive operations take a fuel argument counting
recursion depth; `Except Fail` distinguishes running out of fuel
(modelling unbounded recursion / stack exhaustion) from the Rust
`unwrap()`-on-`None` failure (modelled as `Fail.crash`).

The algorithmic core is `src/base.rs` (`add_child` with the
`unique_nodes` check returning `bool`, `find`, `remove_node` returning
`Option`, `get_root`, `as_array`, and the value-based `PartialEq`);
`src/lib.rs` contributes the public `Node` wrapper operations modelled
here (`children` as a snapshot copy, `add_leaf`).
-/

namespace ANtree

set_option linter.unusedSectionVars false

/-- Outcome of running out of recursion fuel (`noFuel`) or hitting the
Rust `unwrap()`-on-`None` failure (`crash`). -/
inductive Fail where
  | noFuel
  | crash
deriving DecidableEq

/-- One heap record, from `base.rs`:
`struct RawNode<T> { value: T, children: RefCell<Vec<Rc<RawNode<T>>>>, parent: RefCell<Weak<RawNode<T>>> }`.
`parent = none` models `Weak::new()` (no parent set). -/
structure RawNode (T : Type) where
  value : T
  parent : Option Nat
  children : List Nat
deriving DecidableEq

/-- The heap of live records; ids below `size` are allocated. -/
structure Heap (T : Type) where
  size : Nat
  recs : Nat → RawNode T

variable {T : Type} [DecidableEq T]

/-- An empty heap; `d` fills the junk records at unallocated ids. -/
def emptyHeap (d : T) : Heap T :=
  { size := 0, recs := fun _ => ⟨d, none, []⟩ }

/-- `RawNode::new(value)` / `Node::new(value)`: allocate a fresh
parentless, childless record and return a handle (its id). -/
def Heap.newNode (s : Heap T) (v : T) : Heap T × Nat :=
  ({ size := s.size + 1,
     recs := fun m => if m = s.size then ⟨v, none, []⟩ else s.recs m }, s.size)

/-- Overwrite the children list of record `n` (a `children.borrow_mut()` write). -/
def Heap.setChildren (s : Heap T) (n : Nat) (cs : List Nat) : Heap T :=
  { s with recs := fun m => if m = n then { s.recs n with children := cs } else s.recs m }

/-- Overwrite the parent back-reference of record `n` (a `parent.borrow_mut()` write). -/
def Heap.setParent (s : Heap T) (n : Nat) (pr : Option Nat) : Heap T :=
  { s with recs := fun m => if m = n then { s.recs n with parent := pr } else s.recs m }

/-- `RawNode::value()`. -/
def valueOf (s : Heap T) (n : Nat) : T := (s.recs n).value

/-- `RawNode::parent()`: `self.parent.borrow().upgrade()`; in the
all-alive heap model an upgrade of a set back-reference always succeeds. -/
def parentOf (s : Heap T) (n : Nat) : Option Nat := (s.recs n).parent

/-- `Node::children()` (lib.rs lines 76-84): copies the current child list
into a fresh vector of handles, in order; the call reads but never writes
the heap, and the returned list is a value independent of later mutation. -/
def childrenSnap (s : Heap T) (n : Nat) : List Nat := (s.recs n).children

/-- `impl PartialEq for RawNode` (base.rs lines 90-94): two records compare
equal exactly when their values compare equal. -/
def rawNodeEqB (a b : RawNode T) : Bool := decide (a.value = b.value)

/-- `RawNode::get_root()` (base.rs lines 59-65): follow parent
back-references until a record with no parent is reached. -/
def getRootF (s : Heap T) : Nat → Nat → Except Fail Nat
  | 0, _ => .error .noFuel
  | fuel+1, n =>
    match (s.recs n).parent with
    | none => .ok n
    | some p => getRootF s fuel p

/-- `children.iter().find_map(...)`: first `some` produced over the list. -/
def firstSome (f : Nat → Except Fail (Option Nat)) : List Nat → Except Fail (Option Nat)
  | [] => .ok none
  | c :: cs =>
    match f c with
    | .error e => .error e
    | .ok (some r) => .ok (some r)
    | .ok none => firstSome f cs

/-- `RawNode::find()` (base.rs lines 40-46): compare own value first, else
`find_map` over the children in order. -/
def findF (s : Heap T) : Nat → Nat → T → Except Fail (Option Nat)
  | 0, _, _ => .error .noFuel
  | fuel+1, n, v =>
    if (s.recs n).value = v then .ok (some n)
    else firstSome (fun c => findF s fuel c v) (s.recs n).children

/-- `children.iter().for_each(|child| as_array(child, elements, parent))`:
thread the accumulated elements vector through the child calls. -/
def asArrayKids (f : Nat → List Nat → Except Fail (List Nat)) :
    List Nat → List Nat → Except Fail (List Nat)
  | [], acc => .ok acc
  | c :: cs, acc =>
    match f c acc with
    | .error e => .error e
    | .ok acc2 => asArrayKids f cs acc2

/-- `RawNode::as_array(self, elements, parent)` (base.rs lines 67-76): push
`self` when it has no parent, or when its parent compares `==` (value
equality via `PartialEq for RawNode`) to the `parent` argument; then push
every child; then recurse into each child with the same `parent` argument. -/
def asArrayF (s : Heap T) : Nat → Nat → Nat → List Nat → Except Fail (List Nat)
  | 0, _, _, _ => .error .noFuel
  | fuel+1, n, parentId, elements =>
    let elements :=
      match (s.recs n).parent with
      | none => elements ++ [n]
      | some p => if rawNodeEqB (s.recs p) (s.recs parentId) then elements ++ [n] else elements
    let elements := elements ++ (s.recs n).children
    asArrayKids (fun c acc => asArrayF s fuel c parentId acc) (s.recs n).children elements

/-- `RawNode::unique_nodes(self, other)` (base.rs lines 78-87): flatten both
sides with `as_array`, map to values, succeed when no value of the `other`
side is contained in the `self` side. -/
def uniqueNodesF (s : Heap T) (fuel selfN otherN : Nat) : Except Fail Bool :=
  match asArrayF s fuel selfN selfN [] with
  | .error e => .error e
  | .ok myNodes =>
    match asArrayF s fuel otherN selfN [] with
    | .error e => .error e
    | .ok otherNodes =>
      let myValues := myNodes.map fun m => (s.recs m).value
      let otherValues := otherNodes.map fun m => (s.recs m).value
      .ok (!(otherValues.any fun o => myValues.any fun mv => decide (mv = o)))

/-- `RawNode::add_child(self, child)` (base.rs lines 30-38): when
`self.get_root().unique_nodes(child)` holds, push `child` onto `self`'s
children and point `child`'s parent back-reference at `self`, returning
`true`; otherwise return `false` without mutating. -/
def addChildF (s : Heap T) (fuel selfN childN : Nat) : Except Fail (Heap T × Bool) :=
  match getRootF s fuel selfN with
  | .error e => .error e
  | .ok root =>
    match uniqueNodesF s fuel root childN with
    | .error e => .error e
    | .ok u =>
      if u then
        .ok (((s.setChildren selfN ((s.recs selfN).children ++ [childN])).setParent
                childN (some selfN)), true)
      else .ok (s, false)

/-- `Node::add_leaf(value)` (lib.rs lines 111-113): construct a fresh node
around the value and `add_child` it. -/
def addLeafF (s : Heap T) (fuel n : Nat) (v : T) : Except Fail (Heap T × Bool) :=
  let sm := s.newNode v
  addChildF sm.1 fuel n sm.2

/-- `Iterator::position`: index of the first element satisfying the predicate. -/
def position (p : α → Bool) : List α → Option Nat
  | [] => none
  | x :: xs => if p x then some 0 else (position p xs).map (· + 1)

/-- `Vec::remove(idx)`: removed element and the remaining list; `none` when
the index is out of range (where `Vec::remove` fails). -/
def removeAt : List α → Nat → Option (α × List α)
  | [], _ => none
  | x :: xs, 0 => some (x, xs)
  | x :: xs, i+1 => (removeAt xs i).map fun yr => (yr.1, x :: yr.2)

/-- `RawNode::remove_node(self, value)` (base.rs lines 48-57): `find` the
value; if found and the record has a live parent, locate the first child of
that parent whose value matches (the `position(..).unwrap()` — a `crash`
when no child matches) and `Vec::remove` it, returning the removed handle.
The removed record's own parent back-reference is not touched. -/
def removeNodeF (s : Heap T) (fuel n : Nat) (v : T) : Except Fail (Heap T × Option Nat) :=
  match findF s fuel n v with
  | .error e => .error e
  | .ok none => .ok (s, none)
  | .ok (some node) =>
    match (s.recs node).parent with
    | none => .ok (s, none)
    | some p =>
      match position (fun c => decide ((s.recs c).value = v)) (s.recs p).children with
      | none => .error .crash
      | some idx =>
        match removeAt (s.recs p).children idx with
        | none => .error .crash
        | some rr => .ok (s.setChildren p rr.2, some rr.1)

/-- Sequential concatenation of the lists produced for each child. -/
def collectSeq (f : Nat → Except Fail (List Nat)) : List Nat → Except Fail (List Nat)
  | [] => .ok []
  | c :: cs =>
    match f c with
    | .error e => .error e
    | .ok l =>
      match collectSeq f cs with
      | .error e => .error e
      | .ok r => .ok (l ++ r)

/-- Modelled from the spec: the pre-order depth-first enumeration of the
subtree rooted at a record — the record itself first, then each child's
subtree in child order.  Used as the specification-side notion of "the
subtree" and of its value set. -/
def preorderF (s : Heap T) : Nat → Nat → Except Fail (List Nat)
  | 0, _ => .error .noFuel
  | fuel+1, n =>
    match collectSeq (fun c => preorderF s fuel c) (s.recs n).children with
    | .error e => .error e
    | .ok k => .ok (n :: k)

/-- Reachability upward along parent back-references. -/
inductive UpReach (s : Heap T) : Nat → Nat → Prop
  | refl (n : Nat) : UpReach s n n
  | step (n p r : Nat) : (s.recs n).parent = some p → UpReach s p r → UpReach s n r

/-! ### Concrete executions of the public API

Each of the following runs starts from the empty heap and applies only
public operations (`new`, `add_child`, `add_leaf`, `remove_node`,
`find`/`preorder` observation), so every intermediate heap is reachable
through the public API. -/

/-- Build tree a(1)→b(2) and tree c(5)→d(2) (ids 0,1,2,3), record the
spec-side value sets of c's tree and of b's subtree together with whether
they overlap, then run `c.add_child(&b)` and observe the outcome. -/
def overlapAttachRun :
    Except Fail (Bool × Bool × Bool × Bool × List Nat × List Nat × List Nat × Option Nat) := do
  let h0 : Heap Nat := emptyHeap 0
  let h1m := h0.newNode 1      -- a = 0
  let h2m := h1m.1.newNode 2   -- b = 1
  let h3m := h2m.1.newNode 5   -- c = 2
  let h4m := h3m.1.newNode 2   -- d = 3
  let x1 ← addChildF h4m.1 12 0 1
  let x2 ← addChildF x1.1 12 2 3
  let destTree ← preorderF x2.1 12 2
  let candTree ← preorderF x2.1 12 1
  let destVals := destTree.map (valueOf x2.1)
  let candVals := candTree.map (valueOf x2.1)
  let overlap := candVals.any fun o => destVals.any fun mv => decide (mv = o)
  let x3 ← addChildF x2.1 12 2 1
  pure (x1.2, x2.2, overlap, x3.2, destVals, candVals, childrenSnap x3.1 2, parentOf x3.1 1)

/-- Successful public calls only: a(1) gets child b(2); c(5) gets leaf 2
(id 3); then `c.add_child(&b)`; observe the tree rooted at c. -/
def dupValuesRun : Except Fail (Bool × Bool × Bool × List Nat × List Nat) := do
  let h0 : Heap Nat := emptyHeap 0
  let h1m := h0.newNode 1      -- a = 0
  let h2m := h1m.1.newNode 2   -- b = 1
  let x1 ← addChildF h2m.1 12 0 1
  let h3m := x1.1.newNode 5    -- c = 2
  let x2 ← addLeafF h3m.1 12 2 2   -- d = 3
  let x3 ← addChildF x2.1 12 2 1
  let tree ← preorderF x3.1 12 2
  pure (x1.2, x2.2, x3.2, tree, tree.map (valueOf x3.1))

/-- Chain a(1)→b(2)→c(3) (ids 0,1,2), then `c.add_child(&c)`; observe c's
parent back-reference and child list. -/
def selfAttachRun : Except Fail (Bool × Bool × Bool × Option Nat × List Nat) := do
  let h0 : Heap Nat := emptyHeap 0
  let h1m := h0.newNode 1
  let h2m := h1m.1.newNode 2
  let h3m := h2m.1.newNode 3
  let x1 ← addChildF h3m.1 12 0 1
  let x2 ← addChildF x1.1 12 1 2
  let x3 ← addChildF x2.1 12 2 2
  pure (x1.2, x2.2, x3.2, parentOf x3.1 2, childrenSnap x3.1 2)

/-- Same self-attach scenario, keeping the resulting heap. -/
def cyclePrep : Except Fail (Heap Nat × (Bool × Bool × Bool)) := do
  let h0 : Heap Nat := emptyHeap 0
  let h1m := h0.newNode 1
  let h2m := h1m.1.newNode 2
  let h3m := h2m.1.newNode 3
  let x1 ← addChildF h3m.1 12 0 1
  let x2 ← addChildF x1.1 12 1 2
  let x3 ← addChildF x2.1 12 2 2
  pure (x3.1, (x1.2, x2.2, x3.2))

/-- The heap reached by `cyclePrep`: record 2 is its own parent and child. -/
def cycleHeap : Heap Nat := match cyclePrep with
  | .ok hr => hr.1
  | .error _ => emptyHeap 0

/-- Build root(10) with leaf 20 (id 1), then `remove_node(&20)`; observe the
returned handle and the removed record's parent back-reference. -/
def removeKeepsParentRun : Except Fail (Bool × Option Nat × Option Nat) := do
  let h0 : Heap Nat := emptyHeap 0
  let h1m := h0.newNode 10
  let x1 ← addLeafF h1m.1 12 0 20
  let x2 ← removeNodeF x1.1 12 0 20
  pure (x1.2, x2.2, parentOf x2.1 1)

/-- Duplicate values planted through the attach flaw: a(1) gets child b(2);
c(5) gets leaf 2 (id 3); `c.add_child(&b)` also succeeds, so c's children
`[3, 1]` both hold the value 2.  Then `b.find(&2)` (locating b itself) and
`b.remove_node(&2)` are run; the removal's returned handle, c's resulting
child list, and record 3's parent back-reference are observed. -/
def removeMismatchRun :
    Except Fail (Bool × Bool × Bool × Option Nat × Option Nat × List Nat × Option Nat) := do
  let h0 : Heap Nat := emptyHeap 0
  let h1m := h0.newNode 1      -- a = 0
  let h2m := h1m.1.newNode 2   -- b = 1
  let x1 ← addChildF h2m.1 12 0 1
  let h3m := x1.1.newNode 5    -- c = 2
  let x2 ← addLeafF h3m.1 12 2 2    -- d = 3
  let x3 ← addChildF x2.1 12 2 1    -- now c's children are [3, 1]
  let found ← findF x3.1 12 1 2     -- find from b locates b itself (id 1)
  let x4 ← removeNodeF x3.1 12 1 2  -- b.remove_node(&2)
  pure (x1.2, x2.2, x3.2, found, x4.2, childrenSnap x4.1 2, parentOf x4.1 3)

/-- Two freshly constructed records, both wrapping the value 10 (ids 0, 1). -/
def twoFreshTens : Heap Nat := (((emptyHeap 0).newNode 10).1.newNode 10).1

/-- a(1) gets child b(2); then `c(5).add_child(&b)` also succeeds (b keeps a
place in both child lists, its back-reference now points at c); then
`c.remove_node(&2)` detaches b from c. -/
def crashPrep : Except Fail (Heap Nat × (Bool × Bool × Option Nat)) := do
  let h0 : Heap Nat := emptyHeap 0
  let h1m := h0.newNode 1    -- a = 0
  let h2m := h1m.1.newNode 2 -- b = 1
  let h3m := h2m.1.newNode 5 -- c = 2
  let x1 ← addChildF h3m.1 12 0 1
  let x2 ← addChildF x1.1 12 2 1
  let x3 ← removeNodeF x2.1 12 2 2
  pure (x3.1, (x1.2, x2.2, x3.2))

/-- The heap reached by `crashPrep`: b (id 1) still sits in a's child list
while b's parent back-reference points at c (id 2), whose child list is
now empty. -/
def crashHeap : Heap Nat := match crashPrep with
  | .ok hr => hr.1
  | .error _ => emptyHeap 0

/-- A three-record heap: root 0 (value 10) with child 1 (value 20), plus a
detached record 2 (value 30). -/
def demoHeap : Heap Nat :=
  { size := 3,
    recs := fun m =>
      if m = 1 then ⟨20, some 0, []⟩ else if m = 2 then ⟨30, none, []⟩ else ⟨10, none, [1]⟩ }

/-- `demoHeap` after `remove_node(&20)` on the root. -/
def demoHeapAfterRemove : Heap Nat := demoHeap.setChildren 0 []

/-- `demoHeap` after the root successfully attaches record 2. -/
def demoHeapAfterAdd : Heap Nat :=
  (demoHeap.setChildren 0 ((demoHeap.recs 0).children ++ [2])).setParent 2 (some 0)

/-! ### Helper lemmas -/

theorem find?_congr_mem {α} {p q : α → Bool} :
    ∀ {l : List α}, (∀ a ∈ l, p a = q a) → l.find? p = l.find? q := by
  intro l
  induction l with
  | nil => intro _; rfl
  | cons x xs ih =>
    intro h
    have hx := h x (by simp)
    have hrest := ih fun a ha => h a (by simp [ha])
    cases hq : q x with
    | true =>
      rw [List.find?_cons_of_pos _ (by rw [hx, hq]), List.find?_cons_of_pos _ hq]
    | false =>
      rw [List.find?_cons_of_neg _ (by rw [hx, hq]; exact Bool.false_ne_true),
          List.find?_cons_of_neg _ (by rw [hq]; exact Bool.false_ne_true), hrest]

/-- On a record that is not the searched value and whose only child is
itself, `find` recurses forever: it fails for every recursion budget. -/
theorem selfChild_find_noFuel (s : Heap T) (c : Nat) (v : T)
    (hval : ¬ (s.recs c).value = v) (hch : (s.recs c).children = [c]) :
    ∀ fuel, findF s fuel c v = .error .noFuel := by
  intro fuel
  induction fuel with
  | zero => simp [findF]
  | succ fuel ih => simp [findF, hval, hch, firstSome, ih]

/-- On a record that is its own parent, `get_root` recurses forever. -/
theorem selfParent_getRoot_noFuel (s : Heap T) (c : Nat)
    (hp : (s.recs c).parent = some c) :
    ∀ fuel, getRootF s fuel c = .error .noFuel := by
  intro fuel
  induction fuel with
  | zero => simp [getRootF]
  | succ fuel ih => simp [getRootF, hp, ih]

/-- `position` followed by `Vec::remove` at the found index takes out
exactly the first element satisfying the predicate: the list splits as a
match-free prefix, the removed element, and the remainder. -/
theorem position_removeAt_split {α} {p : α → Bool} :
    ∀ (l : List α) (idx : Nat) (a : α) (rest : List α),
      position p l = some idx → removeAt l idx = some (a, rest) →
      ∃ l₁ l₂, l = l₁ ++ a :: l₂ ∧ (∀ x ∈ l₁, p x = false) ∧ rest = l₁ ++ l₂ ∧ p a = true := by
  intro l
  induction l with
  | nil => intro idx a rest h _; simp [position] at h
  | cons x xs ih =>
    intro idx a rest h1 h2
    cases hx : p x with
    | true =>
      rw [position, if_pos hx] at h1
      obtain rfl : 0 = idx := by injection h1
      rw [removeAt] at h2
      obtain ⟨rfl, rfl⟩ : x = a ∧ xs = rest := by
        have := h2; injection this with this; exact ⟨congrArg Prod.fst this, congrArg Prod.snd this⟩
      exact ⟨[], xs, rfl, by simp, rfl, hx⟩
    | false =>
      rw [position, if_neg (by simp [hx])] at h1
      cases hj : position p xs with
      | none => rw [hj] at h1; simp at h1
      | some j =>
        rw [hj] at h1
        simp only [Option.map_some'] at h1
        obtain rfl : j + 1 = idx := by injection h1
        rw [removeAt] at h2
        cases hr : removeAt xs j with
        | none => rw [hr] at h2; simp at h2
        | some yr =>
          rw [hr] at h2
          simp only [Option.map_some'] at h2
          obtain ⟨rfl, hrest⟩ : yr.1 = a ∧ x :: yr.2 = rest := by
            have := h2; injection this with this
            exact ⟨congrArg Prod.fst this, congrArg Prod.snd this⟩
          obtain ⟨l₁, l₂, hsp, hl₁, hys, hpa⟩ := ih j yr.1 yr.2 hj hr
          refine ⟨x :: l₁, l₂, by simp [hsp], ?_, ?_, hpa⟩
          · intro z hz
            rcases List.mem_cons.mp hz with rfl | hz
            · exact hx
            · exact hl₁ z hz
          · rw [← hrest, hys]
            rfl

/-- Full characterisation of a non-failing `remove_node` call: parents are
never written; a `none` result leaves the heap untouched and stems from a
failed `find` or from an unparented match; a `some r` result removes
exactly the FIRST value-matching child `r` from the found record's
parent's child list — the list splits as a match-free prefix `l₁`, then
`r`, then `l₂`, and becomes `l₁ ++ l₂`, one element shorter — and changes
no other record: the removed record's parent back-reference and (when it
is not its own parent) its subtree stay as they were. -/
theorem removeNodeF_ok (s : Heap T) (fuel n : Nat) (v : T) (s' : Heap T) (res : Option Nat)
    (h : removeNodeF s fuel n v = .ok (s', res)) :
    (∀ q, parentOf s' q = parentOf s q) ∧ s'.size = s.size ∧
    (res = none → s' = s ∧
      (findF s fuel n v = .ok none ∨
       ∃ m, findF s fuel n v = .ok (some m) ∧ (s.recs m).parent = none)) ∧
    (∀ r, res = some r → ∃ m p l₁ l₂,
       findF s fuel n v = .ok (some m) ∧ (s.recs m).parent = some p ∧
       (s.recs p).children = l₁ ++ r :: l₂ ∧
       (∀ x ∈ l₁, (s.recs x).value ≠ v) ∧
       (s.recs r).value = v ∧
       childrenSnap s' p = l₁ ++ l₂ ∧
       (childrenSnap s' p).length + 1 = (childrenSnap s p).length ∧
       (∀ q, q ≠ p → s'.recs q = s.recs q) ∧
       (r ≠ p → s'.recs r = s.recs r)) := by
  rw [removeNodeF] at h
  split at h
  · exact Except.noConfusion h
  · rename_i heq
    injection h with h
    injection h with h1 h2
    subst h1; subst h2
    exact ⟨fun q => rfl, rfl, fun _ => ⟨rfl, Or.inl heq⟩, fun r hr => Option.noConfusion hr⟩
  · rename_i node heq
    split at h
    · rename_i hp
      injection h with h
      injection h with h1 h2
      subst h1; subst h2
      exact ⟨fun q => rfl, rfl, fun _ => ⟨rfl, Or.inr ⟨node, heq, hp⟩⟩,
             fun r hr => Option.noConfusion hr⟩
    · rename_i p hp
      split at h
      · exact Except.noConfusion h
      · rename_i idx hpos
        split at h
        · exact Except.noConfusion h
        · rename_i rr hrm
          injection h with h
          injection h with h1 h2
          subst h1; subst h2
          obtain ⟨l₁, l₂, hsp, hl₁, hrest, hpa⟩ :=
            position_removeAt_split (s.recs p).children idx rr.1 rr.2 hpos (by rw [hrm])
          have hsnap : childrenSnap (s.setChildren p rr.2) p = rr.2 := by
            simp [childrenSnap, Heap.setChildren]
          refine ⟨fun q => ?_, rfl, fun hcon => Option.noConfusion hcon, fun r hr => ?_⟩
          · by_cases hq : q = p <;> simp [parentOf, Heap.setChildren, hq]
          · obtain rfl : rr.1 = r := by injection hr
            refine ⟨node, p, l₁, l₂, heq, hp, hsp,
                    fun x hx => of_decide_eq_false (hl₁ x hx),
                    of_decide_eq_true hpa, ?_, ?_, fun q hq => ?_, fun hne => ?_⟩
            · rw [hsnap, hrest]
            · rw [hsnap, hrest, childrenSnap, hsp]
              simp
              omega
            · simp [Heap.setChildren, hq]
            · simp [Heap.setChildren, hne]

/-- Shape of a successful attach: the new heap is the old one with the
child appended to the target's children and the child's back-reference
pointed at the target. -/
theorem addChildF_ok_true (s : Heap T) (fuel m c : Nat) (s₂ : Heap T)
    (h : addChildF s fuel m c = .ok (s₂, true)) :
    s₂ = (s.setChildren m ((s.recs m).children ++ [c])).setParent c (some m) := by
  rw [addChildF] at h
  split at h
  · exact Except.noConfusion h
  · rename_i root heq
    split at h
    · exact Except.noConfusion h
    · rename_i u hu
      split at h
      · injection h with h
        injection h with h1 h2
        exact h1.symm
      · injection h with h
        exact absurd (congrArg Prod.snd h) (by simp)

/-- Whenever the pre-order enumeration of a subtree succeeds, `find` with
the same budget succeeds and returns exactly the first enumerated record
whose value matches. -/
theorem findF_eq_preorder_find? (s : Heap T) (v : T) :
    ∀ (fuel n : Nat) (l : List Nat), preorderF s fuel n = .ok l →
      findF s fuel n v = .ok (l.find? fun m => decide ((s.recs m).value = v)) := by
  intro fuel
  induction fuel with
  | zero => intro n l h; exact Except.noConfusion h
  | succ fuel ih =>
    intro n l h
    rw [preorderF] at h
    split at h
    · exact Except.noConfusion h
    · rename_i k hk
      injection h with h
      subst h
      have hlist : ∀ (cs : List Nat) (K : List Nat),
          collectSeq (fun c => preorderF s fuel c) cs = .ok K →
          firstSome (fun c => findF s fuel c v) cs =
            .ok (K.find? fun m => decide ((s.recs m).value = v)) := by
        intro cs
        induction cs with
        | nil =>
          intro K hK
          injection hK with hK
          subst hK
          rfl
        | cons c cs ihc =>
          intro K hK
          rw [collectSeq] at hK
          split at hK
          · exact Except.noConfusion hK
          · rename_i l₁ h1
            split at hK
            · exact Except.noConfusion hK
            · rename_i K₂ h2
              injection hK with hK
              subst hK
              rw [firstSome, ih c l₁ h1]
              cases hf : l₁.find? fun m => decide ((s.recs m).value = v) with
              | some r =>
                simp only []
                rw [List.find?_append, hf]
                rfl
              | none =>
                simp only []
                rw [ihc K₂ h2, List.find?_append, hf]
                rfl
      by_cases hv : (s.recs n).value = v
      · rw [findF, if_pos hv, List.find?_cons_of_pos _ (by simp [hv])]
      · rw [findF, if_neg hv, hlist (s.recs n).children k hk,
            List.find?_cons_of_neg _ (by simp [hv])]

/-- The pre-order enumeration only reads the records it lists: any heap
agreeing on those records produces the same enumeration. -/
theorem preorderF_agree (s s' : Heap T) :
    ∀ (fuel n : Nat) (l : List Nat), preorderF s fuel n = .ok l →
      (∀ m ∈ l, s'.recs m = s.recs m) → preorderF s' fuel n = .ok l := by
  intro fuel
  induction fuel with
  | zero => intro n l h _; exact Except.noConfusion h
  | succ fuel ih =>
    intro n l h hag
    rw [preorderF] at h
    split at h
    · exact Except.noConfusion h
    · rename_i k hk
      injection h with h
      subst h
      have hn : s'.recs n = s.recs n := hag n (by simp)
      have hlist : ∀ (cs : List Nat) (K : List Nat),
          collectSeq (fun c => preorderF s fuel c) cs = .ok K →
          (∀ m ∈ K, s'.recs m = s.recs m) →
          collectSeq (fun c => preorderF s' fuel c) cs = .ok K := by
        intro cs
        induction cs with
        | nil =>
          intro K hK _
          injection hK with hK
          subst hK
          rfl
        | cons c cs ihc =>
          intro K hK hagK
          rw [collectSeq] at hK
          split at hK
          · exact Except.noConfusion hK
          · rename_i l₁ h1
            split at hK
            · exact Except.noConfusion hK
            · rename_i K₂ h2
              injection hK with hK
              subst hK
              rw [collectSeq, ih c l₁ h1 fun m hm => hagK m (List.mem_append_left _ hm),
                  ihc K₂ h2 fun m hm => hagK m (List.mem_append_right _ hm)]
      rw [preorderF, hn,
          hlist (s.recs n).children k hk fun m hm => hag m (List.mem_cons_of_mem _ hm)]

theorem childrenSnap_setParent (s : Heap T) (n : Nat) (pr : Option Nat) (q : Nat) :
    childrenSnap (s.setParent n pr) q = childrenSnap s q := by
  by_cases h : q = n <;> simp [childrenSnap, Heap.setParent, h]

theorem childrenSnap_setChildren_self (s : Heap T) (n : Nat) (cs : List Nat) :
    childrenSnap (s.setChildren n cs) n = cs := by
  simp [childrenSnap, Heap.setChildren]

theorem childrenSnap_setChildren_other (s : Heap T) (n : Nat) (cs : List Nat) (q : Nat)
    (h : q ≠ n) : childrenSnap (s.setChildren n cs) q = childrenSnap s q := by
  simp [childrenSnap, Heap.setChildren, h]

theorem ne_append_singleton {α} (l : List α) (c : α) : l ++ [c] ≠ l := by
  intro h
  have := congrArg List.length h
  simp at this

/-! ### Claims -/

/-- Claim C1: the spec says `add_child(candidate)` flattens the value set
of self's whole containing tree and of candidate's whole subtree, returns
`false` with no mutation when they intersect, and attaches otherwise.
The code violates this: with trees a(1)→b(2) and c(5)→d(2), the value set
of c's tree is `[5, 2]` and of b's subtree `[2]` — they overlap — yet
`c.add_child(&b)` returns `true`, appends b to c's children (`[3, 1]`)
and repoints b's parent at c.  The cause is `as_array`'s self-push
condition: a candidate that already has a parent whose value differs from
the destination root's value is never pushed, so its value escapes the
`unique_nodes` intersection check. -/
theorem add_child_accepts_overlapping_candidate :
    overlapAttachRun = .ok (true, true, true, true, [5, 2], [2], [3, 1], some 2) := by rfl

/-- Claim C2: the spec says no sequence of successful `add_child`/`add_leaf`
calls starting from fresh nodes can put two equal values in one connected
tree.  The code violates this: after `a(1).add_child(b(2))`,
`c(5).add_leaf(2)` and `c.add_child(&b)` — all returning `true` — the
tree rooted at c enumerates as records `[2, 3, 1]` with values
`[5, 2, 2]`: two distinct records (ids 3 and 1) hold the value 2. -/
theorem uniqueness_invariant_violated :
    dupValuesRun = .ok (true, true, true, [2, 3, 1], [5, 2, 2]) := by rfl

/-- Claim C3: the spec says no sequence of public operations can make a
record its own ancestor or descendant.  The code violates this: in the
chain a(1)→b(2)→c(3), the call `c.add_child(&c)` returns `true` and makes
c (id 2) its own parent and its own child.  (`as_array` never pushes c
because c's parent b has a different value than the root a, so
`unique_nodes` sees an empty candidate value set.) -/
theorem self_attach_creates_cycle :
    selfAttachRun = .ok (true, true, true, some 2, [2]) := by rfl

/-- Claim C4 counterexample, refuting two parts of the claim at concrete
reachable inputs.  First, the parent back-reference is never cleared:
after root(10) gains leaf 20 (id 1) and `remove_node(&20)` returns the
handle `some 1`, the detached record's back-reference still reads `some 0`,
not `none`.  Second, the record detached and returned need not be the one
`find` located: in `removeMismatchRun`, c's children `[3, 1]` both hold
the value 2, `find` from b locates b itself (`some 1`), yet
`b.remove_node(&2)` detaches and returns the earlier value-matching
sibling d (`some 3`), leaving b in c's child list (`[1]`) and d's
back-reference still at c (`some 2`). -/
theorem remove_node_counterexample :
    (removeKeepsParentRun = .ok (true, some 1, some 0) ∧ (some 0 : Option Nat) ≠ none) ∧
    (removeMismatchRun = .ok (true, true, true, some 1, some 3, [1], some 2) ∧
     (some 3 : Option Nat) ≠ some 1 ∧ (some 2 : Option Nat) ≠ none) :=
  ⟨⟨by rfl, by decide⟩, ⟨by rfl, by decide, by decide⟩⟩

/-- Claim C4 (amended): `remove_node` locates the first record with an
equal value via `find`; on a `none` result the heap is untouched (no match,
or the match is an unparented root); on `some r` the record removed and
returned is exactly the FIRST child of the located record's parent whose
value matches — the parent's child list splits as a match-free prefix
`l₁`, then `r`, then `l₂`, and becomes `l₁ ++ l₂`, shrinking by exactly
one (in duplicate-value trees reachable through the attach flaw this `r`
can differ from the located record) — every other record is unchanged,
the detached record keeps its children, and no parent back-reference
anywhere is written: the detached record's back-reference still names its
former parent instead of being cleared. -/
theorem remove_node_detach_spec (s : Heap T) (fuel n : Nat) (v : T) (s' : Heap T)
    (res : Option Nat) (h : removeNodeF s fuel n v = .ok (s', res)) :
    (∀ q, parentOf s' q = parentOf s q) ∧ s'.size = s.size ∧
    (res = none → s' = s ∧
      (findF s fuel n v = .ok none ∨
       ∃ m, findF s fuel n v = .ok (some m) ∧ (s.recs m).parent = none)) ∧
    (∀ r, res = some r → ∃ m p l₁ l₂,
       findF s fuel n v = .ok (some m) ∧ (s.recs m).parent = some p ∧
       (s.recs p).children = l₁ ++ r :: l₂ ∧
       (∀ x ∈ l₁, (s.recs x).value ≠ v) ∧
       (s.recs r).value = v ∧
       childrenSnap s' p = l₁ ++ l₂ ∧
       (childrenSnap s' p).length + 1 = (childrenSnap s p).length ∧
       (∀ q, q ≠ p → s'.recs q = s.recs q) ∧
       (r ≠ p → s'.recs r = s.recs r)) :=
  removeNodeF_ok s fuel n v s' res h

/-- Witness for C4: a concrete successful removal, parents unwritten. -/
theorem remove_node_detach_spec_witness :
    parentOf demoHeapAfterRemove 1 = parentOf demoHeap 1 :=
  (remove_node_detach_spec demoHeap 3 0 20 demoHeapAfterRemove (some 1) (by rfl)).1 1

/-- Claim C5: the spec says handle equality is record identity, so two
fresh handles wrapping equal values compare unequal.  The code's
`PartialEq for RawNode` compares values instead: the two distinct records
(ids 0 and 1) of `twoFreshTens`, each freshly built around the value 10,
compare equal. -/
theorem handle_equality_is_value_equality :
    rawNodeEqB (twoFreshTens.recs 0) (twoFreshTens.recs 1) = true ∧ (0 : Nat) ≠ 1 :=
  ⟨by rfl, by decide⟩

/-- Claim C6: the spec says every public operation terminates on every
reachable tree state.  The code violates this: the public-API run
`cyclePrep` (three successful attaches ending in `c.add_child(&c)`)
reaches `cycleHeap`, where record 2 is its own parent and child; there
`find` for an absent value and `get_root` both fail for every recursion
budget — the Rust originals recurse without bound. -/
theorem public_ops_reach_divergence :
    (cyclePrep.map Prod.snd = .ok (true, true, true) ∧
     parentOf cycleHeap 2 = some 2 ∧ childrenSnap cycleHeap 2 = [2] ∧ valueOf cycleHeap 2 = 3) ∧
    (∀ fuel, findF cycleHeap fuel 2 99 = .error .noFuel) ∧
    (∀ fuel, getRootF cycleHeap fuel 2 = .error .noFuel) :=
  ⟨⟨by rfl, by rfl, by rfl, by rfl⟩,
    selfChild_find_noFuel cycleHeap 2 99 (by decide) (by rfl),
    selfParent_getRoot_noFuel cycleHeap 2 (by rfl)⟩

/-- Claim C7: `find` is a pre-order depth-first search from the call
target inclusive: whenever the pre-order enumeration `l` of the subtree
succeeds, `find` returns exactly the first record of `l` with a matching
value; it returns `none` iff no record of the subtree matches; a returned
handle lies in the subtree and matches; and the result only depends on
the records of that subtree — any heap agreeing on them gives the same
answer, so the search never inspects records outside the subtree. -/
theorem find_preorder_dfs_spec (s s' : Heap T) (fuel n : Nat) (v : T) (l : List Nat)
    (hpre : preorderF s fuel n = .ok l)
    (hagree : ∀ m ∈ l, s'.recs m = s.recs m) :
    findF s fuel n v = .ok (l.find? fun m => decide ((s.recs m).value = v)) ∧
    (findF s fuel n v = .ok none ↔ ∀ m ∈ l, (s.recs m).value ≠ v) ∧
    (∀ r, findF s fuel n v = .ok (some r) → r ∈ l ∧ (s.recs r).value = v) ∧
    findF s' fuel n v = findF s fuel n v := by
  have h1 := findF_eq_preorder_find? s v fuel n l hpre
  refine ⟨h1, ?_, ?_, ?_⟩
  · rw [h1]
    constructor
    · intro h m hm hv
      have hnone : (l.find? fun m => decide ((s.recs m).value = v)) = none := by injection h
      exact (List.find?_eq_none.mp hnone m hm) (by simp [hv])
    · intro hall
      have hn : (l.find? fun m => decide ((s.recs m).value = v)) = none :=
        List.find?_eq_none.mpr fun m hm => by simp [hall m hm]
      rw [hn]
  · intro r h
    rw [h1] at h
    have hf : (l.find? fun m => decide ((s.recs m).value = v)) = some r := by injection h
    have hpa := List.find?_some (p := fun m => decide ((s.recs m).value = v)) hf
    exact ⟨List.mem_of_find?_eq_some hf, of_decide_eq_true (by simpa using hpa)⟩
  · have hpre' := preorderF_agree s s' fuel n l hpre hagree
    have h1' := findF_eq_preorder_find? s' v fuel n l hpre'
    rw [h1, h1']
    have hc : (l.find? fun m => decide ((s'.recs m).value = v)) =
        (l.find? fun m => decide ((s.recs m).value = v)) :=
      find?_congr_mem fun a ha => by rw [hagree a ha]
    rw [hc]

/-- Witness for C7: searching 20 from the root of `demoHeap`. -/
theorem find_preorder_dfs_spec_witness :
    findF demoHeap 5 0 20 =
      .ok (([0, 1] : List Nat).find? fun m => decide ((demoHeap.recs m).value = 20)) :=
  (find_preorder_dfs_spec demoHeap demoHeap 5 0 20 [0, 1] rfl (fun _ _ => rfl)).1

/-- Claim C8: when `get_root` returns a handle `r`, that record has no
parent (so `r.parent()` is `none`), running `get_root` on `r` again with
any positive budget returns `r` itself (idempotence, and a root's
`get_root` is itself), and `r` is reached from the start record by
following parent back-references upward. -/
theorem get_root_spec (s : Heap T) :
    ∀ (fuel n r : Nat), getRootF s fuel n = .ok r →
      parentOf s r = none ∧ (∀ f, getRootF s (f+1) r = .ok r) ∧
      ((s.recs n).parent = none → r = n) ∧ UpReach s n r := by
  intro fuel
  induction fuel with
  | zero => intro n r h; simp [getRootF] at h
  | succ fuel ih =>
    intro n r h
    cases hp : (s.recs n).parent with
    | none =>
      simp [getRootF, hp] at h
      subst h
      exact ⟨hp, fun f => by simp [getRootF, hp], fun _ => rfl, UpReach.refl n⟩
    | some p =>
      simp [getRootF, hp] at h
      obtain ⟨h1, h2, _, h4⟩ := ih p r h
      exact ⟨h1, h2, fun hc => absurd hc (by simp [hp]), UpReach.step n p r hp h4⟩

/-- Witness for C8: the root found from the child of `demoHeap` has no parent. -/
theorem get_root_spec_witness : parentOf demoHeap 0 = none :=
  (get_root_spec demoHeap 2 1 0 rfl).1

/-- Claim C9: the spec says no public operation ever fails abruptly on a
reachable state, the `unwrap` in `remove_node` included.  The code
violates this: `crashPrep` uses only public calls (two successful
attaches of the same node b — possible through the C1 flaw — then one
successful removal) to reach `crashHeap`, where b sits in a's child list
while b's back-reference names c, whose child list is empty; there
`a.remove_node(&2)` finds b, upgrades its parent to c, and
`position(..).unwrap()` fails because no child of c matches. -/
theorem remove_node_reachable_unwrap_crash :
    crashPrep.map Prod.snd = .ok (true, true, some 1) ∧
    removeNodeF crashHeap 12 0 2 = .error .crash := ⟨by rfl, by rfl⟩

/-- Claim C10: `children()` returns the child list as it is at call time,
in insertion order, and the call itself writes nothing (it is a pure
function of the heap).  Later mutations never rewrite an already-returned
list: a successful attach makes the target's current list the old list
with the new child appended — so the previously returned value is no
longer the current list but is itself unchanged — and leaves every other
record's list alone; a successful removal shortens exactly one record's
list by one and leaves every other list alone. -/
theorem children_snapshot_spec (s s₂ s₃ : Heap T) (fuel m c n : Nat) (v : T) (r : Nat)
    (hadd : addChildF s fuel m c = .ok (s₂, true))
    (hrem : removeNodeF s fuel n v = .ok (s₃, some r)) :
    childrenSnap s₂ m = childrenSnap s m ++ [c] ∧
    (∀ q, q ≠ m → childrenSnap s₂ q = childrenSnap s q) ∧
    childrenSnap s₂ m ≠ childrenSnap s m ∧
    (∃ p, (∀ q, q ≠ p → childrenSnap s₃ q = childrenSnap s q) ∧
          (childrenSnap s₃ p).length + 1 = (childrenSnap s p).length ∧
          childrenSnap s₃ p ≠ childrenSnap s p) := by
  obtain rfl := addChildF_ok_true s fuel m c s₂ hadd
  obtain ⟨hpar, hsz, _, hsome⟩ := removeNodeF_ok s fuel n v s₃ (some r) hrem
  obtain ⟨mm, p, l₁, l₂, _, _, _, _, _, _, hlen, hframe, _⟩ := hsome r rfl
  refine ⟨?_, ?_, ?_, p, ?_, hlen, ?_⟩
  · rw [childrenSnap_setParent, childrenSnap_setChildren_self]
    rfl
  · intro q hq
    rw [childrenSnap_setParent, childrenSnap_setChildren_other _ _ _ _ hq]
  · rw [childrenSnap_setParent, childrenSnap_setChildren_self]
    exact ne_append_singleton _ _
  · intro q hq
    simp [childrenSnap, hframe q hq]
  · intro heq
    rw [heq] at hlen
    omega

/-- Witness for C10: attaching record 2 to the root of `demoHeap` appends
it to the snapshot taken before the call. -/
theorem children_snapshot_spec_witness :
    childrenSnap demoHeapAfterAdd 0 = childrenSnap demoHeap 0 ++ [2] :=
  (children_snapshot_spec demoHeap demoHeapAfterAdd demoHeapAfterRemove 5 0 2 0 20 1
    (by rfl) (by rfl)).1

end ANtree
